import Mathlib

/-!
# Client-side page script (`static/js/script.js`)

A shallow embedding of the three behaviours of the page script: the required-field
form validator (`validateForm`), the upload preview controller (the first
`DOMContentLoaded` listener and `handleFileSelect`) and the confidence bar animator
(`animateConfidenceBars`).

JavaScript strings are modelled by `String`, DOM elements by records of the
properties the script reads or writes, a missing element (`null`) by `none`.
-/

namespace Script

/-! ## Strings -/

/-- The code points `String.prototype.trim` strips: ECMAScript `WhiteSpace` and
`LineTerminator`. -/
def isWhiteSpace (c : Char) : Bool :=
  let n := c.toNat
  n == 0x09 || n == 0x0A || n == 0x0B || n == 0x0C || n == 0x0D || n == 0x20 ||
  n == 0xA0 || n == 0x1680 || (0x2000 ≤ n && n ≤ 0x200A) || n == 0x2028 ||
  n == 0x2029 || n == 0x202F || n == 0x205F || n == 0x3000 || n == 0xFEFF

/-- `s.trim()` on the list of characters of `s`. -/
def trimChars (cs : List Char) : List Char :=
  ((cs.dropWhile isWhiteSpace).reverse.dropWhile isWhiteSpace).reverse

/-- `s.trim()`. -/
def trim (s : String) : String := ⟨trimChars s.data⟩

/-- `!s.trim()`: the trimmed string is the empty string, the only falsy string. -/
def isBlank (s : String) : Bool := (trim s).data.isEmpty

/-! ## Form validator -/

/-- An `<input>` element of a form: its `required` attribute, its `value` and its
`classList` (the class tokens in order). -/
structure Input where
  required : Bool
  value : String
  classList : List String
  deriving DecidableEq, Repr

/-- `classList.add(token)`: appends the token unless it is already there. -/
def classListAdd (classList : List String) (token : String) : List String :=
  if token ∈ classList then classList else classList ++ [token]

/-- `classList.remove(token)`: drops every occurrence of the token. -/
def classListRemove (classList : List String) (token : String) : List String :=
  classList.filter (fun t => t != token)

/-- The input carries the `is-invalid` class. -/
def Input.isInvalid (input : Input) : Bool := decide ("is-invalid" ∈ input.classList)

/-- The body of the `inputs.forEach` callback of the submit handler, returning the
input as it is left and whether `valid` was set to `false`. -/
def checkInput (input : Input) : Input × Bool :=
  if isBlank input.value then
    ({ input with classList := classListAdd input.classList "is-invalid" }, false)
  else
    ({ input with classList := classListRemove input.classList "is-invalid" }, true)

/-- The loop `form.querySelectorAll('input[required]').forEach(...)` over the inputs of
the form in document order: inputs that do not match `input[required]` are not visited,
the others go through `checkInput`; `valid` is threaded through. -/
def forEachRequired : List Input → Bool → List Input × Bool
  | [], valid => ([], valid)
  | input :: rest, valid =>
    if input.required then
      let (input1, ok) := checkInput input
      let (rest1, valid1) := forEachRequired rest (if ok then valid else false)
      (input1 :: rest1, valid1)
    else
      let (rest1, valid1) := forEachRequired rest valid
      (input :: rest1, valid1)

/-- The text of the notification. -/
def alertMessage : String := "Please fill in all required fields."

/-- What one run of the submit handler leaves behind: the inputs of the form, the number
of calls of `e.preventDefault()` and the alerts shown. -/
structure SubmitResult where
  inputs : List Input
  preventDefaultCalls : Nat
  alerts : List String
  deriving DecidableEq, Repr

/-- The submit listener installed by `validateForm`, run on the inputs of its form. -/
def submitHandler (form : List Input) : SubmitResult :=
  let (inputs, valid) := forEachRequired form true
  if !valid then
    { inputs := inputs, preventDefaultCalls := 1, alerts := [alertMessage] }
  else
    { inputs := inputs, preventDefaultCalls := 0, alerts := [] }

/-- What the submit handler does to one input of the form: an input that matches
`input[required]` goes through the callback, any other is left alone. -/
def visitInput (input : Input) : Input :=
  if input.required then (checkInput input).1 else input

/-- The user types `value` into the `i`-th input of the form. -/
def setValue (form : List Input) (i : Nat) (value : String) : List Input :=
  form.modify (fun input => { input with value := value }) i

/-! ## Page model -/

/-- A `File` of a file list: its `name`, its MIME `type` and its bytes. -/
structure File where
  name : String
  type : String
  content : List Nat
  deriving DecidableEq, Repr

/-- The element `#previewImage`: its `src` and its inline `style.display`. -/
structure PreviewImage where
  src : String
  display : String
  deriving DecidableEq, Repr

/-- The element `.upload-area`: its inline `style.background` and `style.borderColor`
as the element reports them, and the `textContent` of its first `<p>` descendant
(`none` when it has no `<p>`,
the case `querySelector('p') === null`). -/
structure UploadArea where
  background : String
  borderColor : String
  label : Option String
  deriving DecidableEq, Repr

/-- The element `#fileInput`: its selected `files`. -/
structure FileInput where
  files : List File
  deriving DecidableEq, Repr

/-- A `.confidence-fill` element: its inline `style.width`. -/
structure Bar where
  width : String
  deriving DecidableEq, Repr

/-- A pending `setTimeout` callback of `animateConfidenceBars`: the bar and the width
its closure captured (the bar by its position among the `.confidence-fill` elements),
and the delay in milliseconds. -/
structure Timer where
  bar : Nat
  width : String
  delay : Nat
  deriving DecidableEq, Repr

/-- The markup the script looks up: `getElementById('fileInput')`,
`querySelector('.upload-area')`, `getElementById('previewImage')`,
`querySelectorAll('.confidence-fill')`, and the forms by id, each with its `<input>`
descendants in document order. -/
structure Document where
  fileInput : Option FileInput
  uploadArea : Option UploadArea
  previewImage : Option PreviewImage
  confidenceBars : List Bar
  forms : List (String × List Input)
  deriving DecidableEq, Repr

/-- The page at run time: the document, whether the listeners of the upload block are
attached, the form ids whose element got a submit listener (one entry per listener),
the files of the `FileReader`s whose read is in flight, the pending timers, and what
the script did to the outside: calls of `preventDefault`, alerts, calls of
`fileInput.click()`. -/
structure State where
  doc : Document
  uploadListeners : Bool
  submitListeners : List String
  readers : List File
  timers : List Timer
  preventDefaultCalls : Nat
  alerts : List String
  chooserOpened : Nat
  deriving DecidableEq, Repr

/-- The page before any script has run. -/
def State.initial (doc : Document) : State :=
  { doc := doc, uploadListeners := false, submitListeners := [], readers := [],
    timers := [], preventDefaultCalls := 0, alerts := [], chooserOpened := 0 }

/-- The page with the upload zone replaced by `zone`. -/
def State.withUploadArea (s : State) (zone : UploadArea) : State :=
  { s with doc := { s.doc with uploadArea := some zone } }

/-- The page with the preview image replaced by `img`. -/
def State.withPreviewImage (s : State) (img : PreviewImage) : State :=
  { s with doc := { s.doc with previewImage := some img } }

/-- The page with the file input replaced by `input`. -/
def State.withFileInput (s : State) (input : FileInput) : State :=
  { s with doc := { s.doc with fileInput := some input } }

/-- The page with the confidence bars replaced by `bars`. -/
def State.withBars (s : State) (bars : List Bar) : State :=
  { s with doc := { s.doc with confidenceBars := bars } }

/-- The page with the forms replaced by `forms`. -/
def State.withForms (s : State) (forms : List (String × List Input)) : State :=
  { s with doc := { s.doc with forms := forms } }

/-- An uncaught `TypeError`: a property of `null` was read. -/
inductive JSError where
  | nullDereference (name : String)
  deriving DecidableEq, Repr

/-! ## Upload preview controller -/

/-- `s.startsWith(p)`. -/
def startsWith (s p : String) : Bool := p.data.isPrefixOf s.data

/-- The value of a hexadecimal digit. -/
def hexValue (c : Char) : Option Nat :=
  let n := c.toNat
  if 48 ≤ n ∧ n ≤ 57 then some (n - 48)
  else if 97 ≤ n ∧ n ≤ 102 then some (n - 87)
  else if 65 ≤ n ∧ n ≤ 70 then some (n - 55)
  else none

/-- The byte written by two hexadecimal digits. -/
def hexByte (hi lo : Char) : Option Nat :=
  match hexValue hi, hexValue lo with
  | some h, some l => some (16 * h + l)
  | _, _ => none

/-- What `element.style` holds, and reports when read, after one of the colour texts of
the script has been assigned to it: the CSSOM serialisation of the value. A hexadecimal
colour `#rrggbb` is reported as `rgb(r, g, b)`; the `rgba(...)` texts of the script are
already in serialised form and are reported as written. -/
def cssValue (value : String) : String :=
  match value.data with
  | ['#', r1, r0, g1, g0, b1, b0] =>
    match hexByte r1 r0, hexByte g1 g0, hexByte b1 b0 with
    | some r, some g, some b =>
      "rgb(" ++ toString r ++ ", " ++ toString g ++ ", " ++ toString b ++ ")"
    | _, _, _ => value
  | _ => value

/-- The background text the `dragover` listener assigns. -/
def activeBackground : String := "rgba(255, 107, 53, 0.2)"

/-- The border colour text the `dragover` listener assigns. -/
def activeBorderColor : String := "#ff8c00"

/-- The background text the `dragleave` and `drop` listeners assign. -/
def idleBackground : String := "rgba(255, 107, 53, 0.05)"

/-- The border colour text the `dragleave` and `drop` listeners assign. -/
def idleBorderColor : String := "#ff6b35"

/-- The `click` listener of the zone: `fileInput.click()`. -/
def clickHandler (s : State) : Except JSError State :=
  match s.doc.fileInput with
  | none => .error (.nullDereference "fileInput")
  | some _ => .ok { s with chooserOpened := s.chooserOpened + 1 }

/-- The `dragover` listener of the zone. -/
def dragoverHandler (s : State) : Except JSError State :=
  match s.doc.uploadArea with
  | none => .error (.nullDereference "uploadArea")
  | some zone =>
    .ok ({ s with preventDefaultCalls := s.preventDefaultCalls + 1 }.withUploadArea
      { zone with background := cssValue activeBackground, borderColor := cssValue activeBorderColor })

/-- The `dragleave` listener of the zone. -/
def dragleaveHandler (s : State) : Except JSError State :=
  match s.doc.uploadArea with
  | none => .error (.nullDereference "uploadArea")
  | some zone =>
    .ok (s.withUploadArea
      { zone with background := cssValue idleBackground, borderColor := cssValue idleBorderColor })

/-- The function `handleFileSelect(file)`: for a file whose type starts with `image/` a
`FileReader` is created and `readAsDataURL(file)` starts its read; `file` is `none`
for `undefined`. -/
def handleFileSelect (file : Option File) (s : State) : State :=
  match file with
  | none => s
  | some f =>
    if startsWith f.type "image/" then { s with readers := s.readers ++ [f] } else s

/-- The `reader.onload` callback that `handleFileSelect(file)` installs, run when the
read of `file` has completed with result `readAsDataURL file`. -/
def onload (readAsDataURL : File → String) (file : File) (s : State) : Except JSError State :=
  let s1 : State :=
    match s.doc.previewImage with
    | some img => s.withPreviewImage { img with src := readAsDataURL file, display := "block" }
    | none => s
  match s1.doc.uploadArea with
  | none => .error (.nullDereference "uploadArea")
  | some zone =>
    match zone.label with
    | some _ => .ok (s1.withUploadArea { zone with label := some file.name })
    | none => .ok s1

/-- The `drop` listener of the zone, for the event whose `dataTransfer.files` is `files`. -/
def dropHandler (files : List File) (s : State) : Except JSError State :=
  match s.doc.uploadArea with
  | none => .error (.nullDereference "uploadArea")
  | some zone =>
    let s1 : State :=
      { s with preventDefaultCalls := s.preventDefaultCalls + 1 }.withUploadArea
        { zone with background := cssValue idleBackground, borderColor := cssValue idleBorderColor }
    if files.length ≠ 0 then
      match s1.doc.fileInput with
      | none => .error (.nullDereference "fileInput")
      | some input =>
        .ok (handleFileSelect files.head? (s1.withFileInput { input with files := files }))
    else .ok s1

/-- The `change` listener of the file input, for the event whose `target` is the file
input `target`. -/
def changeHandler (target : FileInput) (s : State) : State :=
  if target.files.length ≠ 0 then handleFileSelect target.files.head? s else s

/-- The user picks `files` in the chooser: the browser stores them in the file input and
fires `change` on it. -/
def chooserSelect (files : List File) (s : State) : State :=
  match s.doc.fileInput with
  | none => s
  | some input =>
    let target : FileInput := { input with files := files }
    let s1 : State := s.withFileInput target
    if s.uploadListeners then changeHandler target s1 else s1

/-! ## Confidence bar animator -/

/-- The loop `confidenceBars.forEach(bar => ...)` from the `i`-th bar on: the bars as they
are left and the timers set. -/
def animateFrom (i : Nat) : List Bar → List Bar × List Timer
  | [] => ([], [])
  | bar :: rest =>
    let width := bar.width
    let (bars, timers) := animateFrom (i + 1) rest
    ({ bar with width := "0" } :: bars, { bar := i, width := width, delay := 500 } :: timers)

/-- The function `animateConfidenceBars()`. -/
def animateConfidenceBars (s : State) : State :=
  let (bars, timers) := animateFrom 0 s.doc.confidenceBars
  { s with timers := s.timers ++ timers }.withBars bars

/-- The callback of a timer: `bar.style.width = width`. -/
def timerCallback (t : Timer) (s : State) : State :=
  s.withBars (s.doc.confidenceBars.modify (fun bar => { bar with width := t.width }) t.bar)

/-- The `k`-th pending timer fires. -/
def fireTimer (k : Nat) (s : State) : State :=
  match s.timers[k]? with
  | none => s
  | some t => timerCallback t { s with timers := s.timers.eraseIdx k }

/-- The pending timers with indices `ks` fire one after the other, each index counted
among the timers still pending at that moment. -/
def fireTimers (ks : List Nat) (s : State) : State :=
  ks.foldl (fun st k => fireTimer k st) s

/-- The relation between the bars as authored (`orig`), the bars now and the timers still
pending, while the timers of one call of `animateConfidenceBars` fire: no bar has two
pending timers, a pending timer holds the authored width of its bar, and a bar shows `0`
while its timer is pending and its authored width afterwards. -/
def TimersInv (orig bars : List Bar) (timers : List Timer) : Prop :=
  bars.length = orig.length ∧ (timers.map Timer.bar).Nodup ∧
  (∀ t ∈ timers, (orig[t.bar]?).map Bar.width = some t.width) ∧
  (∀ (i : Nat) (b : Bar), orig[i]? = some b →
    (bars[i]?).map Bar.width = some (if i ∈ timers.map Timer.bar then "0" else b.width))

/-! ## Page initialisation and events -/

/-- The function `validateForm(formId)`. -/
def validateForm (formId : String) (s : State) : State :=
  match s.doc.forms.lookup formId with
  | some _ => { s with submitListeners := s.submitListeners ++ [formId] }
  | none => s

/-- Stores `inputs` as the inputs of the first form with id `formId`. -/
def setForm (formId : String) (inputs : List Input) :
    List (String × List Input) → List (String × List Input)
  | [] => []
  | (id, old) :: rest =>
    if formId == id then (id, inputs) :: rest else (id, old) :: setForm formId inputs rest

/-- One submit listener of the form with id `formId` runs. -/
def submitListener (formId : String) (s : State) : State :=
  match s.doc.forms.lookup formId with
  | none => s
  | some form =>
    let r := submitHandler form
    { s with
      preventDefaultCalls := s.preventDefaultCalls + r.preventDefaultCalls
      alerts := s.alerts ++ r.alerts }.withForms (setForm formId r.inputs s.doc.forms)

/-- The first `DOMContentLoaded` listener. -/
def uploadInit (s : State) : State :=
  let s1 : State :=
    if s.doc.uploadArea.isSome && s.doc.fileInput.isSome then
      { s with uploadListeners := true }
    else s
  animateConfidenceBars s1

/-- The second `DOMContentLoaded` listener. -/
def validationInit (s : State) : State :=
  validateForm "detectForm" (validateForm "registerForm" (validateForm "loginForm" s))

/-- The page after `DOMContentLoaded`. -/
def domContentLoaded (doc : Document) : State :=
  validationInit (uploadInit (State.initial doc))

/-- What can happen to the page after it has loaded. -/
inductive Event where
  | click
  | dragover
  | dragleave
  | drop (files : List File)
  | change (files : List File)
  | load (k : Nat)
  | timeout (k : Nat)
  | submit (formId : String)
  | type (formId : String) (i : Nat) (value : String)
  deriving DecidableEq, Repr

/-- One event: the listeners attached for it run. `load k` is the completion of the
`k`-th read in flight, `timeout k` the firing of the `k`-th pending timer, `type` the
user editing an input. -/
def dispatch (readAsDataURL : File → String) (s : State) : Event → Except JSError State
  | .click => if s.uploadListeners then clickHandler s else .ok s
  | .dragover => if s.uploadListeners then dragoverHandler s else .ok s
  | .dragleave => if s.uploadListeners then dragleaveHandler s else .ok s
  | .drop files => if s.uploadListeners then dropHandler files s else .ok s
  | .change files => .ok (chooserSelect files s)
  | .load k =>
    match s.readers[k]? with
    | none => .ok s
    | some file => onload readAsDataURL file { s with readers := s.readers.eraseIdx k }
  | .timeout k => .ok (fireTimer k s)
  | .submit formId =>
    .ok ((s.submitListeners.filter (fun id => id == formId)).foldl
      (fun s1 _ => submitListener formId s1) s)
  | .type formId i value =>
    match s.doc.forms.lookup formId with
    | none => .ok s
    | some form =>
      .ok (s.withForms (setForm formId (setValue form i value) s.doc.forms))

/-- A sequence of events, stopping at the first uncaught error. -/
def run (readAsDataURL : File → String) : State → List Event → Except JSError State
  | s, [] => .ok s
  | s, e :: es =>
    match dispatch readAsDataURL s e with
    | .ok s1 => run readAsDataURL s1 es
    | .error err => .error err

/-! ## Derived notions -/

/-- What processing the first file of a selection puts in flight: that file when its type
starts with `image/`, nothing otherwise or when the selection is empty. -/
def imageHead (files : List File) : List File :=
  match files.head? with
  | some f => if startsWith f.type "image/" then [f] else []
  | none => []

/-- The image files processed in the course of the events, oldest first: of each chosen
or dropped list only the first file reaches `handleFileSelect`, and it is read only if
its type starts with `image/`. Files after the first of a list are stored in the file
input but never read. -/
def processedImages : List Event → List File
  | [] => []
  | .change files :: es => imageHead files ++ processedImages es
  | .drop files :: es => imageHead files ++ processedImages es
  | _ :: es => processedImages es

/-- What the preview image and the label show once the reads of `done` have completed in
that order, starting from preview image `img0` and label `label0`. -/
def shown (readAsDataURL : File → String) (img0 : Option PreviewImage)
    (label0 : Option String) (done : List File) : Option PreviewImage × Option String :=
  match done.getLast? with
  | none => (img0, label0)
  | some f =>
    (img0.map (fun _ => { src := readAsDataURL f, display := "block" }),
      label0.map (fun _ => f.name))

/-- No listener of the page can read a property of `null`: the upload listeners are
attached only if the zone and the file input exist, and a read is in flight only if the
zone exists. -/
def Safe (s : State) : Prop :=
  (s.uploadListeners = true → s.doc.uploadArea.isSome = true ∧ s.doc.fileInput.isSome = true) ∧
  (s.readers ≠ [] → s.doc.uploadArea.isSome = true)

/-! ## Sample pages -/

/-- The digits of base64. -/
def base64Digits : List Char :=
  "ABCDEFGHIJKLMNOPQRSTUVWXYZabcdefghijklmnopqrstuvwxyz0123456789+/".data

/-- The base64 digit of a number below 64. -/
def base64Digit (n : Nat) : Char := base64Digits.getD n 'A'

/-- The base64 encoding of a list of bytes. -/
def base64 : List Nat → List Char
  | [] => []
  | [a] => [base64Digit (a / 4), base64Digit (a % 4 * 16), '=', '=']
  | [a, b] =>
    [base64Digit (a / 4), base64Digit (a % 4 * 16 + b / 16), base64Digit (b % 16 * 4), '=']
  | a :: b :: c :: rest =>
    base64Digit (a / 4) :: base64Digit (a % 4 * 16 + b / 16) ::
      base64Digit (b % 16 * 4 + c / 64) :: base64Digit (c % 64) :: base64 rest

/-- The result of `FileReader.readAsDataURL` used on the sample pages: the `data:` URL of
the file with its media type and its bytes in base64. -/
def dataURL (f : File) : String :=
  "data:" ++ f.type ++ ";base64," ++ String.mk (base64 f.content)

/-- The label of the zone: the text of its first paragraph, when the zone and the
paragraph exist. -/
def State.label (s : State) : Option String :=
  s.doc.uploadArea.bind UploadArea.label

/-- A PNG image. -/
def catPng : File := { name := "cat.png", type := "image/png", content := [137, 80, 78, 71] }

/-- A JPEG image. -/
def dogJpg : File := { name := "dog.jpg", type := "image/jpeg", content := [255, 216, 255] }

/-- A text file. -/
def notesTxt : File := { name := "notes.txt", type := "text/plain", content := [104, 105] }

/-- A file whose type the browser could not tell. -/
def untyped : File := { name := "data.bin", type := "", content := [0] }

/-- A detection page: upload zone styled by the style sheet (no inline style) with a
label paragraph, hidden preview image, empty file input, two confidence bars and the
detection form. -/
def detectPage : Document :=
  { fileInput := some { files := [] }
    uploadArea := some { background := "", borderColor := "", label := some "Drop an image" }
    previewImage := some { src := "", display := "none" }
    confidenceBars := [{ width := "85%" }, { width := "15%" }]
    forms := [("detectForm", [{ required := true, value := "", classList := [] }])] }

/-- The detection page with the idle style of the zone authored inline, as the element
reports it. -/
def idlePage : Document :=
  { detectPage with
    uploadArea := some { background := "rgba(255, 107, 53, 0.05)"
                         borderColor := "rgb(255, 107, 53)"
                         label := some "Drop an image" } }

/-! ## Form validator: properties -/

theorem forEachRequired_inputs (form : List Input) (valid : Bool) :
    (forEachRequired form valid).1 = form.map visitInput := by
  induction form generalizing valid with
  | nil => rfl
  | cons x rest ih =>
    by_cases hx : x.required = true
    · simp [forEachRequired, visitInput, hx, ih]
    · simp [forEachRequired, visitInput, hx, ih]

theorem forEachRequired_valid (form : List Input) (valid : Bool) :
    (forEachRequired form valid).2 =
      (valid && form.all (fun x => !(x.required && isBlank x.value))) := by
  induction form generalizing valid with
  | nil => simp [forEachRequired]
  | cons x rest ih =>
    by_cases hx : x.required = true
    · by_cases hb : isBlank x.value = true
      · simp [forEachRequired, checkInput, hx, hb, ih]
      · simp [forEachRequired, checkInput, hx, hb, ih]
    · simp [forEachRequired, hx, ih]

theorem submitHandler_inputs (form : List Input) :
    (submitHandler form).inputs = form.map visitInput := by
  have h := forEachRequired_inputs form true
  unfold submitHandler
  rcases hfe : forEachRequired form true with ⟨inputs, valid⟩
  rw [hfe] at h
  cases valid <;> simpa using h

theorem submitHandler_effects (form : List Input) :
    ((submitHandler form).preventDefaultCalls, (submitHandler form).alerts) =
      if form.all (fun x => !(x.required && isBlank x.value)) then (0, [])
      else (1, [alertMessage]) := by
  have h := forEachRequired_valid form true
  unfold submitHandler
  rcases hfe : forEachRequired form true with ⟨inputs, valid⟩
  rw [hfe] at h
  simp only [Bool.true_and] at h
  rw [← h]
  cases valid <;> simp

theorem visitInput_value (x : Input) : (visitInput x).value = x.value := by
  unfold visitInput checkInput
  split_ifs <;> rfl

theorem visitInput_required (x : Input) : (visitInput x).required = x.required := by
  unfold visitInput checkInput
  split_ifs <;> rfl

theorem isInvalid_classListAdd (cl : List String) :
    ("is-invalid" ∈ classListAdd cl "is-invalid") := by
  unfold classListAdd
  split_ifs with h
  · exact h
  · simp

theorem not_isInvalid_classListRemove (cl : List String) :
    ¬ ("is-invalid" ∈ classListRemove cl "is-invalid") := by
  simp [classListRemove]

theorem visitInput_isInvalid_of_required (x : Input) (hx : x.required = true) :
    (visitInput x).isInvalid = isBlank x.value := by
  unfold visitInput checkInput Input.isInvalid
  by_cases hb : isBlank x.value = true
  · simp [hx, hb, isInvalid_classListAdd]
  · simp [hx, hb, not_isInvalid_classListRemove]

theorem visitInput_of_not_required (x : Input) (hx : x.required = false) :
    visitInput x = x := by
  simp [visitInput, hx]

theorem visitInput_idem (x : Input) : visitInput (visitInput x) = visitInput x := by
  unfold visitInput checkInput
  by_cases hx : x.required = true
  · by_cases hb : isBlank x.value = true
    · simp [hx, hb, classListAdd, isInvalid_classListAdd]
      split_ifs <;> simp [*]
    · simp [hx, hb, classListRemove]
  · simp [hx]

/-- C1. The submit handler calls `preventDefault` (once) and shows exactly one alert if and
only if some required input has a value that is blank after trimming; when every required
input is non-blank (also when there is none) it calls neither, and in every case the values
of all inputs are left as they were. -/
theorem submitHandler_blocks_iff_blank (form : List Input) :
    (((submitHandler form).preventDefaultCalls = 1 ∧
        (submitHandler form).alerts = [alertMessage]) ↔
      ∃ x ∈ form, x.required = true ∧ isBlank x.value = true) ∧
    ((∀ x ∈ form, x.required = true → isBlank x.value = false) →
      (submitHandler form).preventDefaultCalls = 0 ∧ (submitHandler form).alerts = []) ∧
    ((submitHandler form).preventDefaultCalls = 0 ∨
      (submitHandler form).preventDefaultCalls = 1) ∧
    (submitHandler form).inputs.map Input.value = form.map Input.value := by
  have he := submitHandler_effects form
  have hv : (submitHandler form).inputs.map Input.value = form.map Input.value := by
    rw [submitHandler_inputs, List.map_map]
    exact List.map_congr_left (fun x _ => visitInput_value x)
  by_cases hall : form.all (fun x => !(x.required && isBlank x.value)) = true
  · rw [if_pos hall] at he
    have h0 : (submitHandler form).preventDefaultCalls = 0 := congrArg Prod.fst he
    have h1 : (submitHandler form).alerts = [] := congrArg Prod.snd he
    have hno : ∀ x ∈ form, x.required = true → isBlank x.value = false := by
      intro x hx hr
      have := List.all_eq_true.mp hall x hx
      simpa [hr] using this
    refine ⟨⟨fun h => ?_, fun h => ?_⟩, fun _ => ⟨h0, h1⟩, Or.inl h0, hv⟩
    · rw [h0] at h
      exact absurd h.1 (by decide)
    · obtain ⟨x, hx, hr, hb⟩ := h
      rw [hno x hx hr] at hb
      exact absurd hb (by decide)
  · rw [if_neg hall] at he
    have h0 : (submitHandler form).preventDefaultCalls = 1 := congrArg Prod.fst he
    have h1 : (submitHandler form).alerts = [alertMessage] := congrArg Prod.snd he
    have hex : ∃ x ∈ form, x.required = true ∧ isBlank x.value = true := by
      by_contra hcon
      apply hall
      rw [List.all_eq_true]
      intro x hx
      by_cases hr : x.required = true
      · by_cases hb : isBlank x.value = true
        · exact absurd ⟨x, hx, hr, hb⟩ hcon
        · simp [hb]
      · simp [hr]
    refine ⟨⟨fun _ => hex, fun _ => ⟨h0, h1⟩⟩, fun h => ?_, Or.inr h0, hv⟩
    obtain ⟨x, hx, hr, hb⟩ := hex
    rw [h x hx hr] at hb
    exact absurd hb (by decide)

/-- C2 as stated fails: in a form with an input that is not required and carries
`is-invalid`, followed by the required inputs `alice` and `x`, every required input is
non-blank, the submit goes through, and the flag of the first input is still set. -/
theorem flag_stays_on_optional_input :
    (∀ x ∈ [(⟨false, "", ["is-invalid"]⟩ : Input), ⟨true, "alice", []⟩, ⟨true, "x", []⟩],
      x.required = true → isBlank x.value = false) ∧
    (submitHandler
      [⟨false, "", ["is-invalid"]⟩, ⟨true, "alice", []⟩, ⟨true, "x", []⟩]).preventDefaultCalls
        = 0 ∧
    (submitHandler
      [⟨false, "", ["is-invalid"]⟩, ⟨true, "alice", []⟩, ⟨true, "x", []⟩]).inputs =
        [⟨false, "", ["is-invalid"]⟩, ⟨true, "alice", []⟩, ⟨true, "x", []⟩] ∧
    ∃ y ∈ (submitHandler
        [⟨false, "", ["is-invalid"]⟩, ⟨true, "alice", []⟩, ⟨true, "x", []⟩]).inputs,
      y.isInvalid = true :=
  ⟨by decide, by decide, by decide, ⟨false, "", ["is-invalid"]⟩, by decide, by decide⟩

/-- C2, amended. After the submit handler has run, whatever flags the inputs carried
before, each required input carries `is-invalid` if and only if its value is blank after
trimming, and an input that is not required is left as it was, its flag included. So
every blank required input is flagged, and when all required inputs are non-blank no
required input is flagged: a flag that is still set sits on an input that is not required
and carried it before. For the form with username `alice` and password `x`, both
required, no flag is set at the end. -/
theorem submitHandler_flags_iff_blank (form : List Input) :
    (submitHandler form).inputs.length = form.length ∧
    (∀ (i : Nat) (x : Input), form[i]? = some x →
      ∃ y, (submitHandler form).inputs[i]? = some y ∧
        y.required = x.required ∧ y.value = x.value ∧
        (x.required = true → (y.isInvalid = true ↔ isBlank x.value = true)) ∧
        (x.required = false → y = x)) ∧
    (∀ y ∈ (submitHandler form).inputs,
      y.required = true → (y.isInvalid = true ↔ isBlank y.value = true)) ∧
    ((∀ x ∈ form, x.required = true → isBlank x.value = false) →
      ∀ y ∈ (submitHandler form).inputs,
        y.isInvalid = true → y.required = false ∧ y ∈ form) ∧
    (∀ c1 c2 : List String,
      ∀ y ∈ (submitHandler [⟨true, "alice", c1⟩, ⟨true, "x", c2⟩]).inputs,
        y.isInvalid = false) := by
  have hmem : ∀ y ∈ (submitHandler form).inputs,
      y.required = true → (y.isInvalid = true ↔ isBlank y.value = true) := by
    intro y hy hr
    rw [submitHandler_inputs, List.mem_map] at hy
    obtain ⟨x, _, rfl⟩ := hy
    rw [visitInput_required] at hr
    rw [visitInput_isInvalid_of_required x hr, visitInput_value]
  refine ⟨by rw [submitHandler_inputs, List.length_map], ?_, hmem, ?_, ?_⟩
  · intro i x hx
    refine ⟨visitInput x, ?_, visitInput_required x, visitInput_value x, ?_, ?_⟩
    · rw [submitHandler_inputs, List.getElem?_map, hx]
      rfl
    · intro hr
      rw [visitInput_isInvalid_of_required x hr]
    · exact visitInput_of_not_required x
  · intro hall y hy hflag
    have hy1 := hy
    rw [submitHandler_inputs, List.mem_map] at hy1
    obtain ⟨x, hx, rfl⟩ := hy1
    by_cases hr : x.required = true
    · rw [visitInput_isInvalid_of_required x hr, hall x hx hr] at hflag
      exact absurd hflag (by decide)
    · have hr1 : x.required = false := by simpa using hr
      rw [visitInput_of_not_required x hr1]
      exact ⟨hr1, hx⟩
  · intro c1 c2 y hy
    rw [submitHandler_inputs] at hy
    simp only [List.map_cons, List.map_nil, List.mem_cons, List.mem_singleton,
      List.not_mem_nil, or_false] at hy
    rcases hy with rfl | rfl
    · rw [visitInput_isInvalid_of_required _ rfl]
      show isBlank "alice" = false
      decide
    · rw [visitInput_isInvalid_of_required _ rfl]
      show isBlank "x" = false
      decide

/-- C3. Submit, then give one required input (in particular one that the submit flagged
as blank) a non-blank value, then submit again: after the second submit that input no
longer carries `is-invalid`, and every other input of the form is exactly as the first
submit left it, its flag included. -/
theorem resubmit_clears_only_fixed (form : List Input) (i : Nat) (x : Input) (v : String)
    (hx : (submitHandler form).inputs[i]? = some x)
    (hreq : x.required = true) (hv : isBlank v = false) :
    ((submitHandler (setValue (submitHandler form).inputs i v)).inputs[i]?).map
        Input.isInvalid = some false ∧
    (∀ j, j ≠ i →
      (submitHandler (setValue (submitHandler form).inputs i v)).inputs[j]? =
        (submitHandler form).inputs[j]?) ∧
    (∀ j, j ≠ i →
      ((submitHandler (setValue (submitHandler form).inputs i v)).inputs[j]?).map
          Input.isInvalid =
        ((submitHandler form).inputs[j]?).map Input.isInvalid) := by
  have hother : ∀ j, j ≠ i →
      (submitHandler (setValue (submitHandler form).inputs i v)).inputs[j]? =
        (submitHandler form).inputs[j]? := by
    intro j hj
    rw [submitHandler_inputs (setValue _ _ _), List.getElem?_map, setValue,
      List.getElem?_modify_ne _ _ (Ne.symm hj), submitHandler_inputs, List.getElem?_map]
    cases form[j]? with
    | none => rfl
    | some y => simp [visitInput_idem]
  refine ⟨?_, hother, fun j hj => by rw [hother j hj]⟩
  rw [submitHandler_inputs (setValue _ _ _), List.getElem?_map, setValue,
    List.getElem?_modify_eq, hx]
  show some (visitInput { x with value := v }).isInvalid = some false
  congr 1
  have hr : ({ x with value := v } : Input).required = true := hreq
  rw [visitInput_isInvalid_of_required _ hr]
  exact hv

/-- C3 at a login form whose username was left empty and is then filled in. -/
theorem resubmit_clears_only_fixed_witness :
    ((submitHandler (setValue
        (submitHandler [⟨true, "", []⟩, ⟨true, " ", ["form-control"]⟩]).inputs
        0 "alice")).inputs[0]?).map Input.isInvalid = some false ∧
    (∀ j, j ≠ 0 →
      (submitHandler (setValue
        (submitHandler [⟨true, "", []⟩, ⟨true, " ", ["form-control"]⟩]).inputs
        0 "alice")).inputs[j]? =
        (submitHandler [⟨true, "", []⟩, ⟨true, " ", ["form-control"]⟩]).inputs[j]?) ∧
    (∀ j, j ≠ 0 →
      ((submitHandler (setValue
        (submitHandler [⟨true, "", []⟩, ⟨true, " ", ["form-control"]⟩]).inputs
        0 "alice")).inputs[j]?).map Input.isInvalid =
        ((submitHandler [⟨true, "", []⟩, ⟨true, " ", ["form-control"]⟩]).inputs[j]?).map
          Input.isInvalid) :=
  resubmit_clears_only_fixed [⟨true, "", []⟩, ⟨true, " ", ["form-control"]⟩] 0
    ⟨true, "", ["is-invalid"]⟩ "alice" (by decide) (by decide) (by decide)

/-! ## Upload preview controller: properties -/

theorem handleFileSelect_nonImage (file : File) (s : State)
    (htype : startsWith file.type "image/" = false) :
    handleFileSelect (some file) s = s := by
  simp [handleFileSelect, htype]

theorem handleFileSelect_image (file : File) (s : State)
    (htype : startsWith file.type "image/" = true) :
    handleFileSelect (some file) s = { s with readers := s.readers ++ [file] } := by
  simp [handleFileSelect, htype]

/-- C4. Selecting a file whose type does not start with `image/`, through the chooser or
by dropping it (alone or first of several), starts no read and leaves the preview image
(source and display) and the label of the zone as they were; `handleFileSelect` itself
returns the page unchanged. -/
theorem nonImage_selection_changes_nothing (readAsDataURL : File → String) (file : File)
    (rest : List File) (s : State) (zone : UploadArea) (input : FileInput)
    (hzone : s.doc.uploadArea = some zone) (hinput : s.doc.fileInput = some input)
    (htype : startsWith file.type "image/" = false) :
    handleFileSelect (some file) s = s ∧
    (∃ s1, dispatch readAsDataURL s (.change (file :: rest)) = .ok s1 ∧
      s1.readers = s.readers ∧ s1.doc.previewImage = s.doc.previewImage ∧
      s1.label = s.label) ∧
    (∃ s1, dispatch readAsDataURL s (.drop (file :: rest)) = .ok s1 ∧
      s1.readers = s.readers ∧ s1.doc.previewImage = s.doc.previewImage ∧
      s1.label = s.label) := by
  refine ⟨handleFileSelect_nonImage file s htype, ?_, ?_⟩
  · refine ⟨_, rfl, ?_⟩
    by_cases hl : s.uploadListeners = true
    · simp [chooserSelect, hinput, hl, changeHandler, handleFileSelect, htype,
        State.withFileInput, State.label]
    · simp [chooserSelect, hinput, hl, State.withFileInput, State.label]
  · by_cases hl : s.uploadListeners = true
    · simp [dispatch, hl, dropHandler, hzone, hinput, handleFileSelect, htype,
        State.withFileInput, State.withUploadArea, State.label]
    · simp [dispatch, hl]

/-- C4 at a file with the empty type dropped on the loaded detection page. -/
theorem nonImage_selection_changes_nothing_witness :
    handleFileSelect (some untyped) (domContentLoaded detectPage) =
      domContentLoaded detectPage ∧
    (∃ s1, dispatch dataURL (domContentLoaded detectPage) (.change [untyped, catPng])
        = .ok s1 ∧
      s1.readers = (domContentLoaded detectPage).readers ∧
      s1.doc.previewImage = (domContentLoaded detectPage).doc.previewImage ∧
      s1.label = (domContentLoaded detectPage).label) ∧
    (∃ s1, dispatch dataURL (domContentLoaded detectPage) (.drop [untyped, catPng])
        = .ok s1 ∧
      s1.readers = (domContentLoaded detectPage).readers ∧
      s1.doc.previewImage = (domContentLoaded detectPage).doc.previewImage ∧
      s1.label = (domContentLoaded detectPage).label) :=
  nonImage_selection_changes_nothing dataURL untyped [catPng]
    (domContentLoaded detectPage) _ _ rfl rfl (by decide)

/-- C5. `handleFileSelect` on a file whose type starts with `image/` starts one read of
that file and touches nothing else; when that read completes, in whatever state the page
then is (zone with its label paragraph and preview image present), the source of the
preview image is the data URL of that file, its display is `block`, the label of the zone
is the name of that file, and the read is no longer pending. -/
theorem image_read_completion (readAsDataURL : File → String) (file : File) (s s1 : State)
    (k : Nat) (zone : UploadArea) (text : String) (img : PreviewImage)
    (htype : startsWith file.type "image/" = true)
    (hk : s1.readers[k]? = some file)
    (hzone : s1.doc.uploadArea = some zone) (hlabel : zone.label = some text)
    (himg : s1.doc.previewImage = some img) :
    handleFileSelect (some file) s = { s with readers := s.readers ++ [file] } ∧
    ∃ s2, dispatch readAsDataURL s1 (.load k) = .ok s2 ∧
      s2.doc.previewImage = some { img with src := readAsDataURL file, display := "block" } ∧
      s2.doc.uploadArea = some { zone with label := some file.name } ∧
      s2.label = some file.name ∧
      s2.readers = s1.readers.eraseIdx k := by
  refine ⟨handleFileSelect_image file s htype, ?_⟩
  simp [dispatch, hk, onload, himg, hzone, hlabel, State.withPreviewImage,
    State.withUploadArea, State.label]

/-- C5 at a PNG chosen on the loaded detection page. -/
theorem image_read_completion_witness :
    handleFileSelect (some catPng) (domContentLoaded detectPage) =
      { domContentLoaded detectPage with
        readers := (domContentLoaded detectPage).readers ++ [catPng] } ∧
    ∃ s2, dispatch dataURL (chooserSelect [catPng] (domContentLoaded detectPage)) (.load 0)
        = .ok s2 ∧
      s2.doc.previewImage =
        some { src := "data:image/png;base64,iVBORw==", display := "block" } ∧
      s2.doc.uploadArea =
        some { background := "", borderColor := "", label := some "cat.png" } ∧
      s2.label = some "cat.png" ∧
      s2.readers = (chooserSelect [catPng] (domContentLoaded detectPage)).readers.eraseIdx 0 :=
  image_read_completion dataURL catPng (domContentLoaded detectPage)
    (chooserSelect [catPng] (domContentLoaded detectPage)) 0
    { background := "", borderColor := "", label := some "Drop an image" } "Drop an image"
    { src := "", display := "none" } (by decide) (by decide) (by decide) (by decide)
    (by decide)

/-- C6 as stated fails: on the loaded detection page, whose zone has no inline background
or border colour, a `dragover` followed by a `dragleave` leaves the inline background
`rgba(255, 107, 53, 0.05)` and the inline border colour `rgb(255, 107, 53)` (the colour
`#ff6b35`), not the empty values the zone had before. -/
theorem dragleave_does_not_restore :
    (domContentLoaded detectPage).doc.uploadArea.map UploadArea.background = some "" ∧
    (domContentLoaded detectPage).doc.uploadArea.map UploadArea.borderColor = some "" ∧
    ∃ s2, run dataURL (domContentLoaded detectPage) [.dragover, .dragleave] = .ok s2 ∧
      s2.doc.uploadArea.map UploadArea.background = some "rgba(255, 107, 53, 0.05)" ∧
      s2.doc.uploadArea.map UploadArea.borderColor = some "rgb(255, 107, 53)" ∧
      s2.doc.uploadArea.map UploadArea.background ≠
        (domContentLoaded detectPage).doc.uploadArea.map UploadArea.background ∧
      s2.doc.uploadArea.map UploadArea.borderColor ≠
        (domContentLoaded detectPage).doc.uploadArea.map UploadArea.borderColor :=
  ⟨by decide, by decide, _, rfl, by decide, by decide, by decide, by decide⟩

theorem cssValue_idle :
    cssValue idleBackground = "rgba(255, 107, 53, 0.05)" ∧
    cssValue idleBorderColor = "rgb(255, 107, 53)" :=
  ⟨by decide, by decide⟩

/-- C6, amended. Whatever background and border colour the zone reported before, after a
`dragover` followed by a `dragleave` it reports the fixed idle style the `dragleave`
listener assigns: background `rgba(255, 107, 53, 0.05)` and border colour
`rgb(255, 107, 53)`, which is how the element reports the assigned `#ff6b35`; the label
of the zone is untouched. So the zone is as before the `dragover` exactly when it already
reported this idle style. -/
theorem dragover_dragleave_idle (readAsDataURL : File → String) (s : State)
    (zone : UploadArea) (hzone : s.doc.uploadArea = some zone)
    (hl : s.uploadListeners = true) :
    ∃ s2, run readAsDataURL s [.dragover, .dragleave] = .ok s2 ∧
      s2.doc.uploadArea =
        some { zone with background := "rgba(255, 107, 53, 0.05)",
                         borderColor := "rgb(255, 107, 53)" } ∧
      ((s2.doc.uploadArea.map UploadArea.background = some zone.background ∧
          s2.doc.uploadArea.map UploadArea.borderColor = some zone.borderColor) ↔
        (zone.background = "rgba(255, 107, 53, 0.05)" ∧
          zone.borderColor = "rgb(255, 107, 53)")) ∧
      (s2.doc.uploadArea = s.doc.uploadArea ↔
        (zone.background = "rgba(255, 107, 53, 0.05)" ∧
          zone.borderColor = "rgb(255, 107, 53)")) := by
  have hrun : run readAsDataURL s [.dragover, .dragleave] =
      .ok ({ s with preventDefaultCalls := s.preventDefaultCalls + 1 }.withUploadArea
        { zone with background := "rgba(255, 107, 53, 0.05)",
                    borderColor := "rgb(255, 107, 53)" }) := by
    simp [run, dispatch, hl, dragoverHandler, hzone, State.withUploadArea, dragleaveHandler,
      cssValue_idle.1, cssValue_idle.2]
  refine ⟨_, hrun, rfl, ?_, ?_⟩
  · simp only [State.withUploadArea, Option.map_some', Option.some.injEq]
    constructor
    · rintro ⟨h1, h2⟩
      exact ⟨h1.symm, h2.symm⟩
    · rintro ⟨h1, h2⟩
      exact ⟨h1.symm, h2.symm⟩
  · rw [hzone]
    simp only [State.withUploadArea, Option.some.injEq]
    constructor
    · intro h
      have hb := congrArg UploadArea.background h
      have hc := congrArg UploadArea.borderColor h
      exact ⟨hb.symm, hc.symm⟩
    · rintro ⟨h1, h2⟩
      cases zone
      simp only at h1 h2
      subst h1 h2
      rfl

/-- C6, amended, on the loaded detection page (no inline style before, so not restored)
and on the loaded page whose zone already reports the idle style (restored). -/
theorem dragover_dragleave_idle_witness :
    (∃ s2, run dataURL (domContentLoaded detectPage) [.dragover, .dragleave] = .ok s2 ∧
      s2.doc.uploadArea =
        some { background := "rgba(255, 107, 53, 0.05)", borderColor := "rgb(255, 107, 53)",
               label := some "Drop an image" } ∧
      ((s2.doc.uploadArea.map UploadArea.background = some "" ∧
          s2.doc.uploadArea.map UploadArea.borderColor = some "") ↔
        ("" = "rgba(255, 107, 53, 0.05)" ∧ "" = "rgb(255, 107, 53)")) ∧
      (s2.doc.uploadArea = (domContentLoaded detectPage).doc.uploadArea ↔
        ("" = "rgba(255, 107, 53, 0.05)" ∧ "" = "rgb(255, 107, 53)"))) ∧
    (∃ s2, run dataURL (domContentLoaded idlePage) [.dragover, .dragleave] = .ok s2 ∧
      s2.doc.uploadArea =
        some { background := "rgba(255, 107, 53, 0.05)", borderColor := "rgb(255, 107, 53)",
               label := some "Drop an image" } ∧
      ((s2.doc.uploadArea.map UploadArea.background = some "rgba(255, 107, 53, 0.05)" ∧
          s2.doc.uploadArea.map UploadArea.borderColor = some "rgb(255, 107, 53)") ↔
        ("rgba(255, 107, 53, 0.05)" = "rgba(255, 107, 53, 0.05)" ∧
          "rgb(255, 107, 53)" = "rgb(255, 107, 53)")) ∧
      (s2.doc.uploadArea = (domContentLoaded idlePage).doc.uploadArea ↔
        ("rgba(255, 107, 53, 0.05)" = "rgba(255, 107, 53, 0.05)" ∧
          "rgb(255, 107, 53)" = "rgb(255, 107, 53)"))) :=
  ⟨dragover_dragleave_idle dataURL (domContentLoaded detectPage)
      { background := "", borderColor := "", label := some "Drop an image" } (by decide)
      (by decide),
    dragover_dragleave_idle dataURL (domContentLoaded idlePage)
      { background := "rgba(255, 107, 53, 0.05)", borderColor := "rgb(255, 107, 53)",
        label := some "Drop an image" } (by decide) (by decide)⟩

/-- C7 as stated fails: dropping two files on the loaded detection page stores both in
the file input, not the first one alone. -/
theorem drop_assigns_whole_list :
    ∃ s1, dispatch dataURL (domContentLoaded detectPage) (.drop [catPng, dogJpg])
        = .ok s1 ∧
      s1.doc.fileInput = some { files := [catPng, dogJpg] } ∧
      s1.doc.fileInput ≠ some { files := [catPng] } :=
  ⟨_, rfl, by decide, by decide⟩

theorem onload_observed (readAsDataURL : File → String) (file : File) (s t : State)
    (zs zt : UploadArea) (hs : s.doc.uploadArea = some zs) (ht : t.doc.uploadArea = some zt)
    (himg : s.doc.previewImage = t.doc.previewImage) (hlabel : s.label = t.label)
    (hreaders : s.readers = t.readers) :
    ∃ s2 t2, onload readAsDataURL file s = .ok s2 ∧ onload readAsDataURL file t = .ok t2 ∧
      s2.doc.previewImage = t2.doc.previewImage ∧ s2.label = t2.label ∧
      s2.readers = t2.readers := by
  have hl : zs.label = zt.label := by
    simpa [State.label, hs, ht] using hlabel
  cases hp : t.doc.previewImage with
  | none =>
    rw [hp] at himg
    cases hz : zt.label with
    | none =>
      rw [hz] at hl
      simp [onload, himg, hp, hs, ht, hl, hz, State.label, hreaders]
    | some text =>
      rw [hz] at hl
      simp [onload, himg, hp, hs, ht, hl, hz, State.label, hreaders, State.withUploadArea]
  | some img =>
    rw [hp] at himg
    cases hz : zt.label with
    | none =>
      rw [hz] at hl
      simp [onload, himg, hp, hs, ht, hl, hz, State.label, hreaders, State.withPreviewImage]
    | some text =>
      rw [hz] at hl
      simp [onload, himg, hp, hs, ht, hl, hz, State.label, hreaders, State.withUploadArea,
        State.withPreviewImage]

theorem load_observed (readAsDataURL : File → String) (k : Nat) (s t : State)
    (zs zt : UploadArea) (hs : s.doc.uploadArea = some zs) (ht : t.doc.uploadArea = some zt)
    (himg : s.doc.previewImage = t.doc.previewImage) (hlabel : s.label = t.label)
    (hreaders : s.readers = t.readers) :
    ∃ s2 t2, dispatch readAsDataURL s (.load k) = .ok s2 ∧
      dispatch readAsDataURL t (.load k) = .ok t2 ∧
      s2.doc.previewImage = t2.doc.previewImage ∧ s2.label = t2.label ∧
      s2.readers = t2.readers := by
  simp only [dispatch, hreaders]
  cases t.readers[k]? with
  | none => exact ⟨s, t, rfl, rfl, himg, hlabel, hreaders⟩
  | some f =>
    exact onload_observed readAsDataURL f _ _ zs zt hs ht himg hlabel
      (by simp only [hreaders])

/-- C7, amended. On a page with the upload listeners attached, dropping a non-empty list
of files stores the whole dropped list in the file input, as the chooser would on a choice
of the same files, and processes its first file exactly as the `change` listener does for
any choice with the same first file: the reads in flight, the preview image and the label
are the same after the drop as after the choice, and they are the same again after any
read has completed. Dropping an empty list stores nothing and processes nothing. -/
theorem drop_matches_chooser (readAsDataURL : File → String) (file : File)
    (rest other : List File) (s : State) (zone : UploadArea) (input : FileInput)
    (hzone : s.doc.uploadArea = some zone) (hinput : s.doc.fileInput = some input)
    (hl : s.uploadListeners = true) :
    (∃ sd, dispatch readAsDataURL s (.drop (file :: rest)) = .ok sd ∧
      sd.doc.fileInput = some { input with files := file :: rest } ∧
      sd.doc.fileInput = (chooserSelect (file :: rest) s).doc.fileInput ∧
      sd.readers = (chooserSelect (file :: other) s).readers ∧
      sd.doc.previewImage = (chooserSelect (file :: other) s).doc.previewImage ∧
      sd.label = (chooserSelect (file :: other) s).label ∧
      ∀ k, ∃ sd2 sc2, dispatch readAsDataURL sd (.load k) = .ok sd2 ∧
        dispatch readAsDataURL (chooserSelect (file :: other) s) (.load k) = .ok sc2 ∧
        sd2.doc.previewImage = sc2.doc.previewImage ∧ sd2.label = sc2.label ∧
        sd2.readers = sc2.readers) ∧
    (∃ s0, dispatch readAsDataURL s (.drop []) = .ok s0 ∧
      s0.doc.fileInput = s.doc.fileInput ∧ s0.readers = s.readers ∧
      s0.doc.previewImage = s.doc.previewImage ∧ s0.label = s.label) := by
  constructor
  · have hd : dispatch readAsDataURL s (.drop (file :: rest)) =
        .ok (handleFileSelect (some file)
          (({ s with preventDefaultCalls := s.preventDefaultCalls + 1 }.withUploadArea
            { zone with background := cssValue idleBackground, borderColor := cssValue idleBorderColor }
            ).withFileInput { input with files := file :: rest })) := by
      simp [dispatch, hl, dropHandler, hzone, hinput, State.withUploadArea]
    have hc : ∀ fs, chooserSelect (file :: fs) s =
        handleFileSelect (some file) (s.withFileInput { input with files := file :: fs }) := by
      intro fs
      simp [chooserSelect, hinput, hl, changeHandler]
    refine ⟨_, hd, ?_⟩
    rw [hc, hc]
    cases ht : startsWith file.type "image/" with
    | true =>
      simp only [handleFileSelect_image _ _ ht]
      refine ⟨rfl, rfl, rfl, rfl, ?_, fun k => ?_⟩
      · simp [State.label, State.withFileInput, State.withUploadArea, hzone]
      · exact load_observed readAsDataURL k _ _ _ zone rfl hzone rfl
          (by simp [State.label, State.withFileInput, State.withUploadArea, hzone]) rfl
    | false =>
      simp only [handleFileSelect_nonImage _ _ ht]
      refine ⟨rfl, rfl, rfl, rfl, ?_, fun k => ?_⟩
      · simp [State.label, State.withFileInput, State.withUploadArea, hzone]
      · exact load_observed readAsDataURL k _ _ _ zone rfl hzone rfl
          (by simp [State.label, State.withFileInput, State.withUploadArea, hzone]) rfl
  · refine ⟨{ s with preventDefaultCalls := s.preventDefaultCalls + 1 }.withUploadArea
      { zone with background := cssValue idleBackground, borderColor := cssValue idleBorderColor }, ?_, rfl,
      rfl, rfl, ?_⟩
    · simp [dispatch, hl, dropHandler, hzone, State.withUploadArea]
    · simp [State.label, State.withUploadArea, hzone]

/-- C7, amended, at two images dropped on the loaded detection page. -/
theorem drop_matches_chooser_witness :
    (∃ sd, dispatch dataURL (domContentLoaded detectPage) (.drop [catPng, dogJpg]) = .ok sd ∧
      sd.doc.fileInput = some { files := [catPng, dogJpg] } ∧
      sd.doc.fileInput = (chooserSelect [catPng, dogJpg] (domContentLoaded detectPage)).doc.fileInput ∧
      sd.readers = (chooserSelect [catPng] (domContentLoaded detectPage)).readers ∧
      sd.doc.previewImage =
        (chooserSelect [catPng] (domContentLoaded detectPage)).doc.previewImage ∧
      sd.label = (chooserSelect [catPng] (domContentLoaded detectPage)).label ∧
      ∀ k, ∃ sd2 sc2, dispatch dataURL sd (.load k) = .ok sd2 ∧
        dispatch dataURL (chooserSelect [catPng] (domContentLoaded detectPage)) (.load k)
          = .ok sc2 ∧
        sd2.doc.previewImage = sc2.doc.previewImage ∧ sd2.label = sc2.label ∧
        sd2.readers = sc2.readers) ∧
    (∃ s0, dispatch dataURL (domContentLoaded detectPage) (.drop []) = .ok s0 ∧
      s0.doc.fileInput = (domContentLoaded detectPage).doc.fileInput ∧
      s0.readers = (domContentLoaded detectPage).readers ∧
      s0.doc.previewImage = (domContentLoaded detectPage).doc.previewImage ∧
      s0.label = (domContentLoaded detectPage).label) :=
  drop_matches_chooser dataURL catPng [dogJpg] [] (domContentLoaded detectPage)
    { background := "", borderColor := "", label := some "Drop an image" } { files := [] }
    (by decide) (by decide) (by decide)

/-! ## Confidence bar animator: properties -/

theorem animateFrom_bars (i : Nat) (bars : List Bar) :
    (animateFrom i bars).1 = bars.map (fun b => { b with width := "0" }) := by
  induction bars generalizing i with
  | nil => rfl
  | cons b rest ih => simp [animateFrom, ih]

theorem animateFrom_timers (i : Nat) (bars : List Bar) :
    (animateFrom i bars).2 =
      (bars.enumFrom i).map (fun p => { bar := p.1, width := p.2.width, delay := 500 }) := by
  induction bars generalizing i with
  | nil => rfl
  | cons b rest ih => simp [animateFrom, ih]

theorem animateFrom_timers_bar (i : Nat) (bars : List Bar) :
    (animateFrom i bars).2.map Timer.bar = List.range' i bars.length := by
  rw [animateFrom_timers, List.map_map, ← List.enumFrom_map_fst]
  rfl

theorem timersInv_animate (orig : List Bar) :
    TimersInv orig (animateFrom 0 orig).1 (animateFrom 0 orig).2 := by
  refine ⟨?_, ?_, ?_, ?_⟩
  · rw [animateFrom_bars, List.length_map]
  · rw [animateFrom_timers_bar]
    exact List.nodup_range' 0 orig.length
  · intro t ht
    rw [animateFrom_timers, List.mem_map] at ht
    obtain ⟨⟨j, b⟩, hp, rfl⟩ := ht
    rw [List.mk_mem_enumFrom_iff_le_and_getElem?_sub] at hp
    simp only [Nat.sub_zero] at hp
    simp [hp.2]
  · intro i b hb
    have hi : i < orig.length := by
      rcases Nat.lt_or_ge i orig.length with h | h
      · exact h
      · rw [List.getElem?_eq_none h] at hb
        cases hb
    rw [animateFrom_bars, animateFrom_timers_bar, List.getElem?_map, hb]
    have hmem : i ∈ List.range' 0 orig.length := by
      rw [List.mem_range'_1]
      omega
    simp [hmem]

theorem perm_cons_eraseIdx {α : Type} (l : List α) (k : Nat) (t : α) (h : l[k]? = some t) :
    l.Perm (t :: l.eraseIdx k) := by
  induction l generalizing k with
  | nil => simp at h
  | cons a rest ih =>
    cases k with
    | zero =>
      simp only [List.getElem?_cons_zero, Option.some.injEq] at h
      subst h
      exact List.Perm.refl _
    | succ k =>
      simp only [List.getElem?_cons_succ] at h
      exact ((ih k h).cons a).trans (List.Perm.swap t a _)

theorem fireTimer_of_pending (s : State) (k : Nat) (t : Timer) (hk : s.timers[k]? = some t) :
    (fireTimer k s).timers = s.timers.eraseIdx k ∧
    (fireTimer k s).doc.confidenceBars =
      s.doc.confidenceBars.modify (fun bar => { bar with width := t.width }) t.bar := by
  simp [fireTimer, hk, timerCallback, State.withBars]

theorem timersInv_fire (orig : List Bar) (s : State) (k : Nat)
    (h : TimersInv orig s.doc.confidenceBars s.timers) :
    TimersInv orig (fireTimer k s).doc.confidenceBars (fireTimer k s).timers := by
  cases hk : s.timers[k]? with
  | none =>
    have hs : fireTimer k s = s := by simp [fireTimer, hk]
    rw [hs]
    exact h
  | some t =>
    obtain ⟨hlen, hnodup, hwidth, hbars⟩ := h
    obtain ⟨htimers, hmod⟩ := fireTimer_of_pending s k t hk
    rw [htimers, hmod]
    have hperm := (perm_cons_eraseIdx s.timers k t hk).map Timer.bar
    have hnd : (t.bar :: (s.timers.eraseIdx k).map Timer.bar).Nodup := by
      have := hperm.nodup_iff.mp hnodup
      simpa using this
    rw [List.nodup_cons] at hnd
    have htmem : t ∈ s.timers := List.getElem?_mem hk
    refine ⟨?_, hnd.2, ?_, ?_⟩
    · rw [List.length_modify, hlen]
    · intro t1 ht1
      exact hwidth t1 (List.mem_of_mem_eraseIdx ht1)
    · intro i b hb
      have hold := hbars i b hb
      by_cases hi : i = t.bar
      · subst hi
        rw [List.getElem?_modify_eq, if_neg hnd.1]
        have hw := hwidth t htmem
        rw [hb] at hw
        simp only [Option.map_some', Option.some.injEq] at hw
        cases hbar : s.doc.confidenceBars[t.bar]? with
        | none => rw [hbar] at hold; simp at hold
        | some b0 => simp [hw]
      · rw [List.getElem?_modify_ne _ _ (Ne.symm hi), hold]
        have hiff : i ∈ s.timers.map Timer.bar ↔ i ∈ (s.timers.eraseIdx k).map Timer.bar := by
          rw [hperm.mem_iff, List.map_cons, List.mem_cons]
          constructor
          · rintro (h1 | h1)
            · exact absurd h1 hi
            · exact h1
          · exact Or.inr
        simp only [hiff]

theorem timersInv_fireTimers (orig : List Bar) (ks : List Nat) (s : State)
    (h : TimersInv orig s.doc.confidenceBars s.timers) :
    TimersInv orig (fireTimers ks s).doc.confidenceBars (fireTimers ks s).timers := by
  induction ks generalizing s with
  | nil => exact h
  | cons k rest ih => exact ih (fireTimer k s) (timersInv_fire orig s k h)

theorem animateConfidenceBars_of_no_timers (s : State) (hs : s.timers = []) :
    (animateConfidenceBars s).doc.confidenceBars = (animateFrom 0 s.doc.confidenceBars).1 ∧
    (animateConfidenceBars s).timers = (animateFrom 0 s.doc.confidenceBars).2 := by
  unfold animateConfidenceBars
  rcases h : animateFrom 0 s.doc.confidenceBars with ⟨bars, timers⟩
  simp [State.withBars, hs]

/-- C8. Run `animateConfidenceBars` on a page with no timer pending. Right after the call
every confidence bar has width `0` and one timer of 500 ms is pending per bar. Then let the
timers fire in any order, any number of them: a bar whose timer is still pending has width
`0`, a bar whose timer has fired has the width it had before the call, whatever happened
to the other bars; once no timer is pending the bars are exactly as before the call. -/
theorem animate_reset_then_restored (s : State) (ks : List Nat) (hs : s.timers = []) :
    (animateConfidenceBars s).doc.confidenceBars.length = s.doc.confidenceBars.length ∧
    (∀ b ∈ (animateConfidenceBars s).doc.confidenceBars, b.width = "0") ∧
    (animateConfidenceBars s).timers.map Timer.bar =
      List.range' 0 s.doc.confidenceBars.length ∧
    (∀ t ∈ (animateConfidenceBars s).timers, t.delay = 500) ∧
    (∀ (i : Nat) (b : Bar), s.doc.confidenceBars[i]? = some b →
      ((fireTimers ks (animateConfidenceBars s)).doc.confidenceBars[i]?).map Bar.width =
        some (if i ∈ (fireTimers ks (animateConfidenceBars s)).timers.map Timer.bar
          then "0" else b.width)) ∧
    ((fireTimers ks (animateConfidenceBars s)).timers = [] →
      (fireTimers ks (animateConfidenceBars s)).doc.confidenceBars = s.doc.confidenceBars) := by
  obtain ⟨hbars, htimers⟩ := animateConfidenceBars_of_no_timers s hs
  have hinv : TimersInv s.doc.confidenceBars (animateConfidenceBars s).doc.confidenceBars
      (animateConfidenceBars s).timers := by
    rw [hbars, htimers]
    exact timersInv_animate s.doc.confidenceBars
  have hfinal := timersInv_fireTimers s.doc.confidenceBars ks (animateConfidenceBars s) hinv
  refine ⟨hinv.1, ?_, ?_, ?_, hfinal.2.2.2, ?_⟩
  · intro b hb
    rw [hbars, animateFrom_bars, List.mem_map] at hb
    obtain ⟨b0, _, rfl⟩ := hb
    rfl
  · rw [htimers, animateFrom_timers_bar]
  · intro t ht
    rw [htimers, animateFrom_timers, List.mem_map] at ht
    obtain ⟨p, _, rfl⟩ := ht
    rfl
  · intro hnone
    apply List.ext_getElem?
    intro i
    cases hb : s.doc.confidenceBars[i]? with
    | none =>
      have hi : s.doc.confidenceBars.length ≤ i := by
        rcases Nat.lt_or_ge i s.doc.confidenceBars.length with h | h
        · rw [List.getElem?_eq_getElem h] at hb
          cases hb
        · exact h
      apply List.getElem?_eq_none
      rw [hfinal.1]
      exact hi
    | some b =>
      have hw := hfinal.2.2.2 i b hb
      rw [hnone] at hw
      cases hcur : (fireTimers ks (animateConfidenceBars s)).doc.confidenceBars[i]? with
      | none => rw [hcur] at hw; simp at hw
      | some b1 =>
        rw [hcur] at hw
        simp only [Option.map_some', List.map_nil, List.not_mem_nil, if_false,
          Option.some.injEq] at hw
        cases b1
        cases b
        simp only [Bar.mk.injEq, Option.some.injEq]
        exact hw

/-- C8 on the detection page, the timer of the second bar firing before that of the
first. -/
theorem animate_reset_then_restored_witness :
    (fireTimers [1, 0] (animateConfidenceBars (State.initial detectPage))).timers = [] ∧
    (animateConfidenceBars (State.initial detectPage)).doc.confidenceBars.length =
      (State.initial detectPage).doc.confidenceBars.length ∧
    (∀ b ∈ (animateConfidenceBars (State.initial detectPage)).doc.confidenceBars,
      b.width = "0") ∧
    (animateConfidenceBars (State.initial detectPage)).timers.map Timer.bar =
      List.range' 0 (State.initial detectPage).doc.confidenceBars.length ∧
    (∀ t ∈ (animateConfidenceBars (State.initial detectPage)).timers, t.delay = 500) ∧
    (∀ (i : Nat) (b : Bar), (State.initial detectPage).doc.confidenceBars[i]? = some b →
      ((fireTimers [1, 0] (animateConfidenceBars (State.initial detectPage))
          ).doc.confidenceBars[i]?).map Bar.width =
        some (if i ∈ (fireTimers [1, 0] (animateConfidenceBars (State.initial detectPage))
            ).timers.map Timer.bar
          then "0" else b.width)) ∧
    ((fireTimers [1, 0] (animateConfidenceBars (State.initial detectPage))).timers = [] →
      (fireTimers [1, 0] (animateConfidenceBars (State.initial detectPage))
        ).doc.confidenceBars = (State.initial detectPage).doc.confidenceBars) :=
  ⟨by decide, animate_reset_then_restored (State.initial detectPage) [1, 0] (by decide)⟩

/-! ## Events: what each one does to the upload controller -/

theorem onload_of_zone (readAsDataURL : File → String) (file : File) (s : State)
    (hzone : s.doc.uploadArea.isSome = true) :
    ∃ s1, onload readAsDataURL file s = .ok s1 ∧
      s1.uploadListeners = s.uploadListeners ∧
      s1.doc.uploadArea.isSome = true ∧
      s1.doc.fileInput = s.doc.fileInput ∧
      s1.readers = s.readers ∧
      s1.doc.previewImage =
        s.doc.previewImage.map (fun _ => { src := readAsDataURL file, display := "block" }) ∧
      s1.label = s.label.map (fun _ => file.name) := by
  cases hz : s.doc.uploadArea with
  | none => rw [hz] at hzone; cases hzone
  | some zone =>
    cases hp : s.doc.previewImage with
    | none =>
      cases hlab : zone.label with
      | none => simp [onload, hp, hz, hlab, State.label]
      | some text => simp [onload, hp, hz, hlab, State.label, State.withUploadArea]
    | some img =>
      cases hlab : zone.label with
      | none => simp [onload, hp, hz, hlab, State.label, State.withPreviewImage]
      | some text =>
        simp [onload, hp, hz, hlab, State.label, State.withPreviewImage, State.withUploadArea]

theorem handleFileSelect_head (files : List File) (s : State) :
    handleFileSelect files.head? s = { s with readers := s.readers ++ imageHead files } := by
  cases files with
  | nil => simp [handleFileSelect, imageHead]
  | cons f rest =>
    cases ht : startsWith f.type "image/" <;> simp [handleFileSelect, imageHead, ht]

theorem fireTimer_upload (k : Nat) (s : State) :
    (fireTimer k s).uploadListeners = s.uploadListeners ∧
    (fireTimer k s).doc.uploadArea = s.doc.uploadArea ∧
    (fireTimer k s).doc.fileInput = s.doc.fileInput ∧
    (fireTimer k s).doc.previewImage = s.doc.previewImage ∧
    (fireTimer k s).readers = s.readers := by
  unfold fireTimer
  cases s.timers[k]? <;> simp [timerCallback, State.withBars]

theorem submitListener_upload (formId : String) (s : State) :
    (submitListener formId s).uploadListeners = s.uploadListeners ∧
    (submitListener formId s).doc.uploadArea = s.doc.uploadArea ∧
    (submitListener formId s).doc.fileInput = s.doc.fileInput ∧
    (submitListener formId s).doc.previewImage = s.doc.previewImage ∧
    (submitListener formId s).readers = s.readers := by
  unfold submitListener
  cases s.doc.forms.lookup formId <;> simp [State.withForms]

theorem submitListeners_upload (formId : String) (ids : List String) (s : State) :
    (ids.foldl (fun s1 _ => submitListener formId s1) s).uploadListeners = s.uploadListeners ∧
    (ids.foldl (fun s1 _ => submitListener formId s1) s).doc.uploadArea = s.doc.uploadArea ∧
    (ids.foldl (fun s1 _ => submitListener formId s1) s).doc.fileInput = s.doc.fileInput ∧
    (ids.foldl (fun s1 _ => submitListener formId s1) s).doc.previewImage =
      s.doc.previewImage ∧
    (ids.foldl (fun s1 _ => submitListener formId s1) s).readers = s.readers := by
  induction ids generalizing s with
  | nil => simp
  | cons id rest ih =>
    obtain ⟨h1, h2, h3, h4, h5⟩ := ih (submitListener formId s)
    obtain ⟨g1, g2, g3, g4, g5⟩ := submitListener_upload formId s
    simp only [List.foldl_cons]
    exact ⟨h1.trans g1, h2.trans g2, h3.trans g3, h4.trans g4, h5.trans g5⟩

/-- What one event does, on a page that is `Safe`: it raises no error, the page stays
`Safe`, listeners and the presence of zone and file input stay as they are; a selection
adds the read of its first file if that is an image, a completion takes its read out of
flight and writes the preview and the label, any other event leaves the reads in flight,
the preview and the label alone. -/
theorem dispatch_spec (readAsDataURL : File → String) (s : State) (e : Event)
    (hs : Safe s) :
    ∃ s1, dispatch readAsDataURL s e = .ok s1 ∧ Safe s1 ∧
      s1.uploadListeners = s.uploadListeners ∧
      s1.doc.uploadArea.isSome = s.doc.uploadArea.isSome ∧
      s1.doc.fileInput.isSome = s.doc.fileInput.isSome ∧
      (match e with
        | .load k =>
          match s.readers[k]? with
          | some f =>
            s1.readers = s.readers.eraseIdx k ∧
            s1.doc.previewImage =
              s.doc.previewImage.map (fun _ => { src := readAsDataURL f, display := "block" }) ∧
            s1.label = s.label.map (fun _ => f.name)
          | none =>
            s1.readers = s.readers ∧ s1.doc.previewImage = s.doc.previewImage ∧
            s1.label = s.label
        | .change files =>
          s1.readers = s.readers ++
            (if s.uploadListeners = true ∧ s.doc.fileInput.isSome = true
              then imageHead files else []) ∧
          s1.doc.previewImage = s.doc.previewImage ∧ s1.label = s.label
        | .drop files =>
          s1.readers = s.readers ++ (if s.uploadListeners = true then imageHead files else []) ∧
          s1.doc.previewImage = s.doc.previewImage ∧ s1.label = s.label
        | _ =>
          s1.readers = s.readers ∧ s1.doc.previewImage = s.doc.previewImage ∧
          s1.label = s.label) := by
  have hsafe := hs
  obtain ⟨hw, hr⟩ := hs
  cases e with
  | click =>
    rcases Bool.eq_false_or_eq_true s.uploadListeners with hl | hl
    · obtain ⟨hz, hi⟩ := hw hl
      obtain ⟨input, hin⟩ := Option.isSome_iff_exists.mp hi
      refine ⟨{ s with chooserOpened := s.chooserOpened + 1 }, ?_, hsafe, rfl, rfl, rfl,
        rfl, rfl, rfl⟩
      simp [dispatch, hl, clickHandler, hin]
    · exact ⟨s, by simp [dispatch, hl], hsafe, rfl, rfl, rfl, rfl, rfl, rfl⟩
  | dragover =>
    rcases Bool.eq_false_or_eq_true s.uploadListeners with hl | hl
    · obtain ⟨hz, hi⟩ := hw hl
      obtain ⟨zone, hzone⟩ := Option.isSome_iff_exists.mp hz
      refine ⟨{ s with preventDefaultCalls := s.preventDefaultCalls + 1 }.withUploadArea
        { zone with background := cssValue activeBackground, borderColor := cssValue activeBorderColor },
        ?_, ?_, rfl, ?_, rfl, rfl, rfl, ?_⟩
      · simp [dispatch, hl, dragoverHandler, hzone]
      · exact ⟨fun _ => ⟨rfl, hi⟩, fun _ => rfl⟩
      · simp [State.withUploadArea, hzone]
      · simp [State.label, State.withUploadArea, hzone]
    · exact ⟨s, by simp [dispatch, hl], hsafe, rfl, rfl, rfl, rfl, rfl, rfl⟩
  | dragleave =>
    rcases Bool.eq_false_or_eq_true s.uploadListeners with hl | hl
    · obtain ⟨hz, hi⟩ := hw hl
      obtain ⟨zone, hzone⟩ := Option.isSome_iff_exists.mp hz
      refine ⟨s.withUploadArea
        { zone with background := cssValue idleBackground, borderColor := cssValue idleBorderColor },
        ?_, ?_, rfl, ?_, rfl, rfl, rfl, ?_⟩
      · simp [dispatch, hl, dragleaveHandler, hzone]
      · exact ⟨fun _ => ⟨rfl, hi⟩, fun _ => rfl⟩
      · simp [State.withUploadArea, hzone]
      · simp [State.label, State.withUploadArea, hzone]
    · exact ⟨s, by simp [dispatch, hl], hsafe, rfl, rfl, rfl, rfl, rfl, rfl⟩
  | drop files =>
    rcases Bool.eq_false_or_eq_true s.uploadListeners with hl | hl
    · obtain ⟨hz, hi⟩ := hw hl
      obtain ⟨zone, hzone⟩ := Option.isSome_iff_exists.mp hz
      obtain ⟨input, hin⟩ := Option.isSome_iff_exists.mp hi
      cases files with
      | nil =>
        refine ⟨{ s with preventDefaultCalls := s.preventDefaultCalls + 1 }.withUploadArea
          { zone with background := cssValue idleBackground, borderColor := cssValue idleBorderColor },
          ?_, ?_, rfl, ?_, rfl, ?_, rfl, ?_⟩
        · simp [dispatch, hl, dropHandler, hzone]
        · exact ⟨fun _ => ⟨rfl, hi⟩, fun _ => rfl⟩
        · simp [State.withUploadArea, hzone]
        · simp [imageHead, State.withUploadArea]
        · simp [State.label, State.withUploadArea, hzone]
      | cons f rest =>
        refine ⟨handleFileSelect (f :: rest).head?
          (({ s with preventDefaultCalls := s.preventDefaultCalls + 1 }.withUploadArea
            { zone with background := cssValue idleBackground, borderColor := cssValue idleBorderColor }
            ).withFileInput { input with files := f :: rest }), ?_, ?_⟩
        · simp [dispatch, hl, dropHandler, hzone, hin, State.withUploadArea]
        · rw [handleFileSelect_head]
          refine ⟨?_, rfl, ?_, ?_, ?_, rfl, ?_⟩
          · exact ⟨fun _ => ⟨rfl, rfl⟩, fun _ => rfl⟩
          · simp [State.withFileInput, State.withUploadArea, hzone]
          · simp [State.withFileInput, State.withUploadArea, hin]
          · simp [State.withFileInput, State.withUploadArea, hl]
          · simp [State.label, State.withFileInput, State.withUploadArea, hzone]
    · refine ⟨s, by simp [dispatch, hl], hsafe, rfl, rfl, rfl, ?_, rfl, rfl⟩
      simp [hl]
  | change files =>
    rcases Option.eq_none_or_eq_some s.doc.fileInput with hin | ⟨input, hin⟩
    · refine ⟨s, by simp [dispatch, chooserSelect, hin], hsafe, rfl, rfl, rfl, ?_, rfl, rfl⟩
      simp [hin]
    · rcases Bool.eq_false_or_eq_true s.uploadListeners with hl | hl
      · obtain ⟨hz, hi⟩ := hw hl
        refine ⟨handleFileSelect files.head? (s.withFileInput { input with files := files }),
          ?_, ?_⟩
        · cases files with
          | nil => simp [dispatch, chooserSelect, hin, hl, changeHandler, handleFileSelect]
          | cons f rest => simp [dispatch, chooserSelect, hin, hl, changeHandler]
        · rw [handleFileSelect_head]
          refine ⟨?_, rfl, rfl, ?_, ?_, rfl, rfl⟩
          · exact ⟨fun _ => ⟨hz, rfl⟩, fun _ => hz⟩
          · simp [State.withFileInput, hin]
          · simp [State.withFileInput, hl, hin]
      · refine ⟨s.withFileInput { input with files := files }, ?_, ?_, rfl, rfl, ?_, ?_, rfl,
          rfl⟩
        · simp [dispatch, chooserSelect, hin, hl]
        · refine ⟨fun h => ?_, hr⟩
          have h1 : s.uploadListeners = true := h
          rw [hl] at h1
          cases h1
        · simp [State.withFileInput, hin]
        · simp [State.withFileInput, hl]
  | load k =>
    rcases Option.eq_none_or_eq_some s.readers[k]? with hk | ⟨f, hk⟩
    · refine ⟨s, by simp [dispatch, hk], hsafe, rfl, rfl, rfl, ?_⟩
      simp only [hk]
      trivial
    · have hne : s.readers ≠ [] := by
        intro h
        rw [h] at hk
        simp at hk
      have hz := hr hne
      obtain ⟨s1, h1, hl1, hz1, hi1, hr1, hp1, hlab1⟩ :=
        onload_of_zone readAsDataURL f { s with readers := s.readers.eraseIdx k } hz
      refine ⟨s1, by simp [dispatch, hk, h1], ⟨?_, fun _ => hz1⟩, hl1, ?_, ?_, ?_⟩
      · intro h
        rw [hl1] at h
        exact ⟨hz1, by rw [hi1]; exact (hw h).2⟩
      · rw [hz1, hz]
      · rw [hi1]
      · simp only [hk]
        exact ⟨hr1, hp1, hlab1⟩
  | timeout k =>
    obtain ⟨h1, h2, h3, h4, h5⟩ := fireTimer_upload k s
    refine ⟨fireTimer k s, rfl, ⟨?_, ?_⟩, h1, by rw [h2], by rw [h3], h5, h4, ?_⟩
    · rw [h1, h2, h3]; exact hw
    · rw [h5, h2]; exact hr
    · simp [State.label, h2]
  | submit formId =>
    obtain ⟨h1, h2, h3, h4, h5⟩ :=
      submitListeners_upload formId (s.submitListeners.filter (fun id => id == formId)) s
    refine ⟨_, rfl, ⟨?_, ?_⟩, h1, by rw [h2], by rw [h3], h5, h4, ?_⟩
    · rw [h1, h2, h3]; exact hw
    · rw [h5, h2]; exact hr
    · simp [State.label, h2]
  | type formId i value =>
    rcases Option.eq_none_or_eq_some (s.doc.forms.lookup formId) with hf | ⟨form, hf⟩
    · exact ⟨s, by simp [dispatch, hf], hsafe, rfl, rfl, rfl, rfl, rfl, rfl⟩
    · exact ⟨s.withForms (setForm formId (setValue form i value) s.doc.forms),
        by simp [dispatch, hf], hsafe, rfl, rfl, rfl, rfl, rfl, rfl⟩

/-! ## Page initialisation: no listener reads a property of `null` -/

theorem validateForm_upload (formId : String) (s : State) :
    (validateForm formId s).uploadListeners = s.uploadListeners ∧
    (validateForm formId s).doc = s.doc ∧
    (validateForm formId s).readers = s.readers := by
  unfold validateForm
  cases s.doc.forms.lookup formId <;> simp

theorem animateConfidenceBars_upload (s : State) :
    (animateConfidenceBars s).uploadListeners = s.uploadListeners ∧
    (animateConfidenceBars s).doc.uploadArea = s.doc.uploadArea ∧
    (animateConfidenceBars s).doc.fileInput = s.doc.fileInput ∧
    (animateConfidenceBars s).doc.previewImage = s.doc.previewImage ∧
    (animateConfidenceBars s).readers = s.readers := by
  unfold animateConfidenceBars
  rcases animateFrom 0 s.doc.confidenceBars with ⟨bars, timers⟩
  simp [State.withBars]

theorem domContentLoaded_upload (doc : Document) :
    (domContentLoaded doc).uploadListeners = (doc.uploadArea.isSome && doc.fileInput.isSome) ∧
    (domContentLoaded doc).doc.uploadArea = doc.uploadArea ∧
    (domContentLoaded doc).doc.fileInput = doc.fileInput ∧
    (domContentLoaded doc).doc.previewImage = doc.previewImage ∧
    (domContentLoaded doc).readers = [] := by
  unfold domContentLoaded validationInit
  obtain ⟨a1, a2, a3⟩ := validateForm_upload "detectForm"
    (validateForm "registerForm" (validateForm "loginForm" (uploadInit (State.initial doc))))
  obtain ⟨b1, b2, b3⟩ := validateForm_upload "registerForm"
    (validateForm "loginForm" (uploadInit (State.initial doc)))
  obtain ⟨c1, c2, c3⟩ := validateForm_upload "loginForm" (uploadInit (State.initial doc))
  rw [a1, a2, a3, b1, b2, b3, c1, c2, c3]
  unfold uploadInit
  cases hc : ((State.initial doc).doc.uploadArea.isSome &&
      (State.initial doc).doc.fileInput.isSome)
  · obtain ⟨d1, d2, d3, d4, d5⟩ := animateConfidenceBars_upload (State.initial doc)
    simp only [Bool.false_eq_true, if_false]
    rw [d1, d2, d3, d4, d5]
    exact ⟨hc.symm, rfl, rfl, rfl, rfl⟩
  · obtain ⟨d1, d2, d3, d4, d5⟩ :=
      animateConfidenceBars_upload { State.initial doc with uploadListeners := true }
    simp only [if_true]
    rw [d1, d2, d3, d4, d5]
    exact ⟨hc.symm, rfl, rfl, rfl, rfl⟩

theorem safe_domContentLoaded (doc : Document) : Safe (domContentLoaded doc) := by
  obtain ⟨h1, h2, h3, _, h5⟩ := domContentLoaded_upload doc
  refine ⟨fun h => ?_, fun h => absurd h5 h⟩
  rw [h1, Bool.and_eq_true] at h
  rw [h2, h3]
  exact h

theorem run_safe (readAsDataURL : File → String) (evs : List Event) (s : State)
    (hs : Safe s) : ∃ s1, run readAsDataURL s evs = .ok s1 ∧ Safe s1 := by
  induction evs generalizing s with
  | nil => exact ⟨s, rfl, hs⟩
  | cons e rest ih =>
    obtain ⟨s1, h1, hs1, _⟩ := dispatch_spec readAsDataURL s e hs
    obtain ⟨s2, h2, hs2⟩ := ih s1 hs1
    exact ⟨s2, by simp only [run, h1, h2], hs2⟩

/-- C10. Whatever elements the document has, page initialisation followed by any
sequence of events ends without a listener having read a property of an absent element.
The upload listeners are attached exactly when both the zone and the file input exist,
so none is attached when either is absent; `validateForm` on an id without a form returns
the page as it was; and in every state the page can reach, a read is in flight (so the
completion callback with its unguarded use of the zone can run) only if the zone
exists. -/
theorem no_null_dereference (readAsDataURL : File → String) (doc : Document)
    (evs : List Event) :
    (∃ s, run readAsDataURL (domContentLoaded doc) evs = .ok s ∧
      (s.uploadListeners = true →
        s.doc.uploadArea.isSome = true ∧ s.doc.fileInput.isSome = true) ∧
      (s.readers ≠ [] → s.doc.uploadArea.isSome = true)) ∧
    (domContentLoaded doc).uploadListeners =
      (doc.uploadArea.isSome && doc.fileInput.isSome) ∧
    ((doc.uploadArea = none ∨ doc.fileInput = none) →
      (domContentLoaded doc).uploadListeners = false) ∧
    (∀ (formId : String) (s : State),
      s.doc.forms.lookup formId = none → validateForm formId s = s) := by
  obtain ⟨s, hrun, hsafe⟩ := run_safe readAsDataURL evs (domContentLoaded doc)
    (safe_domContentLoaded doc)
  refine ⟨⟨s, hrun, hsafe⟩, (domContentLoaded_upload doc).1, ?_, ?_⟩
  · intro h
    rw [(domContentLoaded_upload doc).1]
    rcases h with h | h <;> simp [h]
  · intro formId s h
    simp [validateForm, h]

/-! ## Which image the preview ends up showing -/

/-- C9 as stated fails, in two ways. On the loaded detection page choose `cat.png`, then
drop `dog.jpg`, and let the read of `dog.jpg` complete before the read of `cat.png`: no
read is pending at the end, the image selected last is `dog.jpg`, and the preview shows
`cat.png` with the label `cat.png`. And with reads completing in order: choose `dog.jpg`,
let its read complete, then drop `notes.txt` together with `cat.png`: the file input
holds the image `cat.png`, selected last, no read was started for it, none is pending,
and the preview still shows `dog.jpg`. -/
theorem stale_read_overwrites_preview :
    (∃ s, run dataURL (domContentLoaded detectPage)
        [.change [catPng], .drop [dogJpg], .load 1, .load 0] = .ok s ∧
      s.readers = [] ∧
      s.doc.fileInput = some { files := [dogJpg] } ∧
      s.doc.previewImage = some { src := dataURL catPng, display := "block" } ∧
      s.label = some catPng.name ∧
      s.doc.previewImage ≠ some { src := dataURL dogJpg, display := "block" } ∧
      s.label ≠ some dogJpg.name) ∧
    (∃ s, run dataURL (domContentLoaded detectPage)
        [.change [dogJpg], .load 0, .drop [notesTxt, catPng], .load 0] = .ok s ∧
      s.readers = [] ∧
      s.doc.fileInput = some { files := [notesTxt, catPng] } ∧
      startsWith catPng.type "image/" = true ∧
      s.doc.previewImage = some { src := dataURL dogJpg, display := "block" } ∧
      s.label = some dogJpg.name ∧
      s.doc.previewImage ≠ some { src := dataURL catPng, display := "block" } ∧
      s.label ≠ some catPng.name) :=
  ⟨⟨_, rfl, by decide, by decide, by decide, by decide, by decide, by decide⟩,
    ⟨_, rfl, by decide, by decide, by decide, by decide, by decide, by decide, by decide⟩⟩

theorem shown_snoc (readAsDataURL : File → String) (img0 : Option PreviewImage)
    (label0 : Option String) (done : List File) (f : File) :
    shown readAsDataURL img0 label0 (done ++ [f]) =
      ((shown readAsDataURL img0 label0 done).1.map
          (fun _ => { src := readAsDataURL f, display := "block" }),
        (shown readAsDataURL img0 label0 done).2.map (fun _ => f.name)) := by
  unfold shown
  rw [List.getLast?_append, List.getLast?_singleton]
  cases done.getLast? with
  | none => simp
  | some g => cases img0 <;> cases label0 <;> simp

theorem run_in_order (readAsDataURL : File → String) (img0 : Option PreviewImage)
    (label0 : Option String) (evs : List Event) (s : State) (done : List File)
    (hs : Safe s) (hl : s.uploadListeners = true)
    (hshown : (s.doc.previewImage, s.label) = shown readAsDataURL img0 label0 done)
    (hord : ∀ k, Event.load k ∈ evs → k = 0) :
    ∃ s1, run readAsDataURL s evs = .ok s1 ∧
      ∃ done1, (s1.doc.previewImage, s1.label) = shown readAsDataURL img0 label0 done1 ∧
        done1 ++ s1.readers = done ++ s.readers ++ processedImages evs := by
  induction evs generalizing s done with
  | nil => exact ⟨s, rfl, done, hshown, by simp [processedImages]⟩
  | cons e rest ih =>
    obtain ⟨s1, h1, hs1, hl1, hz1, hi1, hspec⟩ := dispatch_spec readAsDataURL s e hs
    have hord1 : ∀ k, Event.load k ∈ rest → k = 0 :=
      fun k hk => hord k (List.mem_cons_of_mem _ hk)
    have hin : s.doc.fileInput.isSome = true := (hs.1 hl).2
    have hkeep : ∀ (extra : List File), s1.readers = s.readers ++ extra →
        s1.doc.previewImage = s.doc.previewImage → s1.label = s.label →
        processedImages (e :: rest) = extra ++ processedImages rest →
        ∃ s2, run readAsDataURL s (e :: rest) = .ok s2 ∧
          ∃ done1, (s2.doc.previewImage, s2.label) = shown readAsDataURL img0 label0 done1 ∧
            done1 ++ s2.readers = done ++ s.readers ++ processedImages (e :: rest) := by
      intro extra hr hp hlab hsel
      obtain ⟨s2, h2, done1, hd1, hc1⟩ := ih s1 done hs1 (hl1.trans hl)
        (by rw [hp, hlab]; exact hshown) hord1
      refine ⟨s2, by simp only [run, h1, h2], done1, hd1, ?_⟩
      rw [hc1, hr, hsel]
      simp only [List.append_assoc]
    cases e with
    | load k =>
      have hk : k = 0 := hord k (List.mem_cons_self _ _)
      subst hk
      simp only at hspec
      cases hread : s.readers with
      | nil =>
        rw [hread] at hspec
        simp only [List.getElem?_nil] at hspec
        have hgoal := hkeep [] (by rw [hspec.1, hread]; rfl) hspec.2.1 hspec.2.2
          (by simp [processedImages])
        rw [hread] at hgoal
        exact hgoal
      | cons f pending =>
        rw [hread] at hspec
        simp only [List.getElem?_cons_zero, List.eraseIdx_cons_zero] at hspec
        obtain ⟨hr, hp, hlab⟩ := hspec
        have hshown1 : (s1.doc.previewImage, s1.label) =
            shown readAsDataURL img0 label0 (done ++ [f]) := by
          rw [shown_snoc, ← hshown, hp, hlab]
        obtain ⟨s2, h2, done1, hd1, hc1⟩ := ih s1 (done ++ [f]) hs1 (hl1.trans hl)
          hshown1 hord1
        refine ⟨s2, by simp only [run, h1, h2], done1, hd1, ?_⟩
        rw [hc1, hr]
        simp [processedImages]
    | change files =>
      simp only [hl, hin, and_self, if_true] at hspec
      exact hkeep (imageHead files) hspec.1 hspec.2.1 hspec.2.2 rfl
    | drop files =>
      simp only [hl, if_true] at hspec
      exact hkeep (imageHead files) hspec.1 hspec.2.1 hspec.2.2 rfl
    | click =>
      exact hkeep [] (by rw [hspec.1]; simp) hspec.2.1 hspec.2.2 (by simp [processedImages])
    | dragover =>
      exact hkeep [] (by rw [hspec.1]; simp) hspec.2.1 hspec.2.2 (by simp [processedImages])
    | dragleave =>
      exact hkeep [] (by rw [hspec.1]; simp) hspec.2.1 hspec.2.2 (by simp [processedImages])
    | timeout k =>
      exact hkeep [] (by rw [hspec.1]; simp) hspec.2.1 hspec.2.2 (by simp [processedImages])
    | submit formId =>
      exact hkeep [] (by rw [hspec.1]; simp) hspec.2.1 hspec.2.2 (by simp [processedImages])
    | type formId i value =>
      exact hkeep [] (by rw [hspec.1]; simp) hspec.2.1 hspec.2.2 (by simp [processedImages])

theorem run_no_images (readAsDataURL : File → String) (evs : List Event) (s : State)
    (hs : Safe s) (hr : s.readers = []) (hsel : processedImages evs = []) :
    ∃ s1, run readAsDataURL s evs = .ok s1 ∧ s1.readers = [] ∧
      s1.doc.previewImage = s.doc.previewImage ∧ s1.label = s.label := by
  induction evs generalizing s with
  | nil => exact ⟨s, rfl, hr, rfl, rfl⟩
  | cons e rest ih =>
    obtain ⟨s1, h1, hs1, _, _, _, hspec⟩ := dispatch_spec readAsDataURL s e hs
    have hkeep : s1.readers = [] → s1.doc.previewImage = s.doc.previewImage →
        s1.label = s.label → processedImages rest = [] →
        ∃ s2, run readAsDataURL s (e :: rest) = .ok s2 ∧ s2.readers = [] ∧
          s2.doc.previewImage = s.doc.previewImage ∧ s2.label = s.label := by
      intro hr1 hp hlab hrest
      obtain ⟨s2, h2, hr2, hp2, hl2⟩ := ih s1 hs1 hr1 hrest
      exact ⟨s2, by simp only [run, h1, h2], hr2, hp2.trans hp, hl2.trans hlab⟩
    cases e with
    | load k =>
      simp only [hr, List.getElem?_nil] at hspec
      exact hkeep hspec.1 hspec.2.1 hspec.2.2 hsel
    | change files =>
      simp only [processedImages, List.append_eq_nil] at hsel
      simp only [hr, hsel.1, ite_self, List.append_nil] at hspec
      exact hkeep hspec.1 hspec.2.1 hspec.2.2 hsel.2
    | drop files =>
      simp only [processedImages, List.append_eq_nil] at hsel
      simp only [hr, hsel.1, ite_self, List.append_nil] at hspec
      exact hkeep hspec.1 hspec.2.1 hspec.2.2 hsel.2
    | click => exact hkeep (hspec.1.trans hr) hspec.2.1 hspec.2.2 hsel
    | dragover => exact hkeep (hspec.1.trans hr) hspec.2.1 hspec.2.2 hsel
    | dragleave => exact hkeep (hspec.1.trans hr) hspec.2.1 hspec.2.2 hsel
    | timeout k => exact hkeep (hspec.1.trans hr) hspec.2.1 hspec.2.2 hsel
    | submit formId => exact hkeep (hspec.1.trans hr) hspec.2.1 hspec.2.2 hsel
    | type formId i value => exact hkeep (hspec.1.trans hr) hspec.2.1 hspec.2.2 hsel

/-- C9, amended. Start from a page with the upload listeners attached and no read in
flight, and let any events happen. The run ends without error. If no chosen or dropped
list had an image as its first file (in particular if no image file was ever selected),
no read is pending at the end and the preview image and the label are as at the start,
whatever the order of the events. If every read that completes is the oldest one in
flight (reads complete in the order they were started), then once no read is pending the
preview shows the image file processed last, the first file of the last chosen or dropped
list whose first file is an image: its source is the data URL of that file, its display
is `block` and the label is the name of that file. Files after the first of a list are
never shown. -/
theorem preview_shows_last_selected_in_order (readAsDataURL : File → String) (s0 : State)
    (evs : List Event) (hs : Safe s0) (hl : s0.uploadListeners = true)
    (hr : s0.readers = []) :
    ∃ s, run readAsDataURL s0 evs = .ok s ∧
      (processedImages evs = [] →
        s.readers = [] ∧ s.doc.previewImage = s0.doc.previewImage ∧ s.label = s0.label) ∧
      ((∀ k, Event.load k ∈ evs → k = 0) → s.readers = [] →
        ∀ f, (processedImages evs).getLast? = some f →
          s.doc.previewImage =
            s0.doc.previewImage.map (fun _ => { src := readAsDataURL f, display := "block" }) ∧
          s.label = s0.label.map (fun _ => f.name)) := by
  obtain ⟨s, hrun, _⟩ := run_safe readAsDataURL evs s0 hs
  refine ⟨s, hrun, ?_, ?_⟩
  · intro hsel
    obtain ⟨s1, h1, hr1, hp1, hl1⟩ := run_no_images readAsDataURL evs s0 hs hr hsel
    rw [hrun] at h1
    cases h1
    exact ⟨hr1, hp1, hl1⟩
  · intro hord hdone f hf
    obtain ⟨s1, h1, done1, hd1, hc1⟩ := run_in_order readAsDataURL s0.doc.previewImage
      s0.label evs s0 [] hs hl rfl hord
    rw [hrun] at h1
    cases h1
    rw [hdone, hr] at hc1
    simp only [List.append_nil, List.nil_append] at hc1
    rw [hc1] at hd1
    simp only [shown, hf, Prod.mk.injEq] at hd1
    exact hd1

/-- C9, amended, on the loaded detection page: `cat.png` is chosen and read, then
`dog.jpg` is dropped together with `notes.txt` and read. -/
theorem preview_shows_last_selected_in_order_witness :
    (∀ k, Event.load k ∈ [Event.change [catPng], .load 0, .drop [dogJpg, notesTxt], .load 0] → k = 0) ∧
    (processedImages [.change [catPng], .load 0, .drop [dogJpg, notesTxt], .load 0]).getLast? =
      some dogJpg ∧
    ∃ s, run dataURL (domContentLoaded detectPage)
        [.change [catPng], .load 0, .drop [dogJpg, notesTxt], .load 0] = .ok s ∧
      (processedImages [.change [catPng], .load 0, .drop [dogJpg, notesTxt], .load 0] = [] →
        s.readers = [] ∧
        s.doc.previewImage = (domContentLoaded detectPage).doc.previewImage ∧
        s.label = (domContentLoaded detectPage).label) ∧
      ((∀ k, Event.load k ∈ [Event.change [catPng], .load 0, .drop [dogJpg, notesTxt], .load 0] →
          k = 0) → s.readers = [] →
        ∀ f, (processedImages [.change [catPng], .load 0, .drop [dogJpg, notesTxt], .load 0]).getLast?
            = some f →
          s.doc.previewImage =
            (domContentLoaded detectPage).doc.previewImage.map
              (fun _ => { src := dataURL f, display := "block" }) ∧
          s.label = (domContentLoaded detectPage).label.map (fun _ => f.name)) :=
  ⟨fun k hk => by simpa using hk, by decide,
    preview_shows_last_selected_in_order dataURL (domContentLoaded detectPage)
      [.change [catPng], .load 0, .drop [dogJpg, notesTxt], .load 0]
      ⟨fun _ => ⟨by decide, by decide⟩, fun _ => by decide⟩ (by decide) (by decide)⟩

end Script
